import Mathlib

/-!
Shallow embedding of the loago task-tracking core (src/src/lib.rs) and the
parts of its chrono dependency that the library contract exposes: the
NaiveDateTime value type, its Debug formatting and FromStr parsing for the
format %Y-%m-%dT%H:%M:%S%.f, and Duration::num_days.

The store Tasks(HashMap<String, NaiveDateTime>) is embedded as an association
list of (name, timestamp) pairs; a HashMap is unordered, so any enumeration
order is a faithful snapshot, and lookup/insert/remove are modelled with the
documented HashMap semantics (insert replaces the value of an existing key,
otherwise adds the entry).  Machine integers (i64 in chrono Duration) never
come near their bounds here and are embedded as Int; Rust usize lengths are
Nat, and str::len is the UTF-8 byte size.
-/

/-- Model of chrono NaiveDateTime restricted to the calendar fields: a civil
date (proleptic Gregorian) together with a time of day at nanosecond
precision.  Years are modelled in the range 0..=9999 (the range chrono
Debug prints as a plain zero-padded 4-digit year) and leap seconds (chrono
nanosecond field reaching 1_000_000_000) are outside the model. -/
structure NaiveDateTime where
  year : Nat
  month : Nat
  day : Nat
  hour : Nat
  minute : Nat
  second : Nat
  nano : Nat
deriving DecidableEq, Repr

/-- A year divisible by 4 and, if divisible by 100, also by 400 (chrono
proleptic Gregorian leap-year rule). -/
def isLeapYear (y : Nat) : Bool :=
  y % 4 == 0 && (y % 100 != 0 || y % 400 == 0)

/-- Number of days in a month of a given year. -/
def daysInMonth (y m : Nat) : Nat :=
  if m = 2 then (if isLeapYear y then 29 else 28)
  else if m = 4 ∨ m = 6 ∨ m = 9 ∨ m = 11 then 30
  else 31

/-- The field ranges under which the embedding mirrors chrono exactly: a
valid civil date with year at most 9999, a time of day below 24:00:00, and a
sub-second part below one second (no leap-second representation). -/
def ValidDateTime (t : NaiveDateTime) : Prop :=
  t.year ≤ 9999 ∧ 1 ≤ t.month ∧ t.month ≤ 12 ∧ 1 ≤ t.day ∧
    t.day ≤ daysInMonth t.year t.month ∧ t.hour ≤ 23 ∧ t.minute ≤ 59 ∧
    t.second ≤ 59 ∧ t.nano < 1000000000

instance (t : NaiveDateTime) : Decidable (ValidDateTime t) := by
  unfold ValidDateTime
  infer_instance

/-- Days since 1970-01-01 of a civil date (the standard civil-from-days
computation used by chrono NaiveDate ordinal arithmetic, shifted by 400
years so all intermediate arithmetic stays in Nat). -/
def daysFromCivil (y m d : Nat) : Int :=
  let y2 := if m ≤ 2 then y + 399 else y + 400
  let era := y2 / 400
  let yoe := y2 % 400
  let mp := if m ≤ 2 then m + 9 else m - 3
  let doy := (153 * mp + 2) / 5 + (d - 1)
  let doe := yoe * 365 + yoe / 4 - yoe / 100 + doy
  (era * 146097 + doe : Int) - 865565

/-- Nanoseconds since the 1970-01-01T00:00:00 epoch; the linearisation of a
NaiveDateTime along which chrono compares and subtracts datetimes. -/
def toNanos (t : NaiveDateTime) : Int :=
  (daysFromCivil t.year t.month t.day * 86400 +
      ((t.hour * 3600 + t.minute * 60 + t.second : Nat) : Int)) * 1000000000 +
    (t.nano : Int)

/-- Model of chrono NaiveDateTime subtraction (signed_duration_since): the
resulting Duration is its total signed length in nanoseconds. -/
def signedDurationSince (a b : NaiveDateTime) : Int :=
  toNanos a - toNanos b

/-- Model of chrono Duration::num_days: whole seconds (truncated toward
zero), then whole days (Rust integer division, truncated toward zero). -/
def num_days (d : Int) : Int :=
  (Int.tdiv d 1000000000).tdiv 86400

/-- The store: Tasks wraps HashMap<String, NaiveDateTime>
(src/src/lib.rs:20), embedded as an association list snapshot. -/
abbrev Tasks := List (String × NaiveDateTime)

/-- The render result: OutputTasks wraps Vec<(String, String)>
(src/src/lib.rs:220-225). -/
abbrev OutputTasks := List (String × String)

/-- HashMap lookup on the association-list snapshot. -/
def lookupTask : Tasks → String → Option NaiveDateTime
  | [], _ => none
  | p :: ps, k => if p.1 = k then some p.2 else lookupTask ps k

/-- HashMap::insert: replace the value of an existing key, otherwise add the
entry. -/
def insertTask : Tasks → String → NaiveDateTime → Tasks
  | [], k, v => [(k, v)]
  | p :: ps, k, v => if p.1 = k then (k, v) :: ps else p :: insertTask ps k v

namespace Tasks

/-- Model of Tasks::update_multiple (src/src/lib.rs:108-116).  The source
reads the clock once (let now = now() at line 112) before the loop; that
single captured reading is the explicit now parameter here. -/
def update_multiple (self : Tasks) (tasks : List String) (now : NaiveDateTime) : Tasks :=
  tasks.foldl (fun acc task => insertTask acc task now) self

/-- Model of Tasks::remove (src/src/lib.rs:119-121): HashMap::remove by
key. -/
def remove (self : Tasks) (task : String) : Tasks :=
  self.filter (fun p => p.1 != task)

/-- Model of Tasks::keep_multiple (src/src/lib.rs:142-155): build a fresh
map, copying over each requested entry of the name when contains_key holds, then
replace the store contents with it. -/
def keep_multiple (self : Tasks) (tasks : List String) : Tasks :=
  tasks.foldl
    (fun map task =>
      match lookupTask self task with
      | some timestamp => insertTask map task timestamp
      | none => map)
    []

/-- The intermediate of Tasks::output_when (src/src/lib.rs:198-204): each
entry mapped to (name, now - timestamp) and then sorted ascending by the
Duration (sort_by_key, a stable ascending sort, modelled by the stable
List.insertionSort). -/
def elapsedSorted (self : Tasks) (now : NaiveDateTime) : List (String × Int) :=
  List.insertionSort (fun a b => a.2 ≤ b.2)
    (self.map (fun p => (p.1, signedDurationSince now p.2)))

/-- Model of Tasks::output_when (src/src/lib.rs:194-210): sort the entries by
elapsed duration, then render each duration with the given closure. -/
def output_when (self : Tasks) (now : NaiveDateTime) (to_string : Int → String) : OutputTasks :=
  (elapsedSorted self now).map (fun p => (p.1, to_string p.2))

/-- Model of Tasks::output (src/src/lib.rs:176-181).  The source calls the
ambient clock internally (self.output_when(now(), to_string)); that hidden
clock reading is surfaced as the extra ambientNow parameter of the embedding
so the dependence on it can be stated. -/
def output (self : Tasks) (to_string : Int → String) (ambientNow : NaiveDateTime) : OutputTasks :=
  output_when self ambientNow to_string

/-- Model of Tasks::output_days (src/src/lib.rs:164-166): output with the
closure rendering Duration::num_days in decimal.  It inherits the ambient
clock reading of Tasks::output. -/
def output_days (self : Tasks) (ambientNow : NaiveDateTime) : OutputTasks :=
  output self (fun duration => toString (num_days duration)) ambientNow

end Tasks

/-- A run of n ASCII spaces (" ".repeat(n)). -/
def spaces (n : Nat) : String :=
  String.mk (List.replicate n ' ')

/-- The first loop of the Display impl for OutputTasks (src/src/lib.rs:229-
235): the running maximum of the task-name byte lengths, starting from 0. -/
def maxNameLen (self : OutputTasks) : Nat :=
  self.foldl
    (fun length p => if p.1.utf8ByteSize > length then p.1.utf8ByteSize else length)
    0

/-- The second loop of the Display impl for OutputTasks (src/src/lib.rs:236-
247): append each name, padding spaces up to the maximal name length, a
space, an em dash, a space, the rendered text and a newline to the buffer. -/
def displayOutputTasks (self : OutputTasks) : String :=
  let length := maxNameLen self
  self.foldl
    (fun buffer p =>
      let whitespace := spaces (length - p.1.utf8ByteSize)
      buffer ++ p.1 ++ whitespace ++ " " ++ "—" ++ " " ++ p.2 ++ "\n")
    ""

/-- Model of the test helper december() (src/src/lib.rs:280-285):
2023-12-20 00:00:00. -/
def december : NaiveDateTime := ⟨2023, 12, 20, 0, 0, 0, 0⟩

/-- Model of the test helper november(day) (src/src/lib.rs:287-292).  Note
the helper passes its argument as the MONTH of from_ymd_opt(2023, day, 20),
so november(1) is 2023-01-20, not November 1st. -/
def november (day : Nat) : NaiveDateTime := ⟨2023, day, 20, 0, 0, 0, 0⟩

/-- Model of the test fixture Tasks::different_days (src/src/lib.rs:271-277)
in its insertion order. -/
def different_days : Tasks :=
  [("dust", november 1), ("vacuum", november 2), ("exercise", november 3)]

/-- The store of the historical scenario as the spec transcribes it: tasks
last done on 2023-11-01, 2023-11-02 and 2023-11-03 at midnight. -/
def spec_claimed_store : Tasks :=
  [("dust", ⟨2023, 11, 1, 0, 0, 0, 0⟩), ("vacuum", ⟨2023, 11, 2, 0, 0, 0, 0⟩),
    ("exercise", ⟨2023, 11, 3, 0, 0, 0, 0⟩)]

/-- The decimal digit character of d (for d below 10). -/
def digitChar (d : Nat) : Char :=
  Char.ofNat (48 + d)

/-- The zero-padded w-digit decimal rendering of n (for n below 10 ^ w),
most significant digit first. -/
def padDigits : Nat → Nat → List Char
  | 0, _ => []
  | w + 1, n => digitChar (n / 10 ^ w) :: padDigits w (n % 10 ^ w)

/-- Model of the fractional-second part of chrono NaiveTime Debug
formatting: nothing when the nanosecond field is zero, otherwise a dot
followed by 3, 6 or 9 digits depending on whether the field is a whole
number of milliseconds or microseconds. -/
def formatNano (nano : Nat) : List Char :=
  if nano = 0 then []
  else if nano % 1000000 = 0 then '.' :: padDigits 3 (nano / 1000000)
  else if nano % 1000 = 0 then '.' :: padDigits 6 (nano / 1000)
  else '.' :: padDigits 9 nano

/-- Model of chrono NaiveDateTime Debug formatting (the format the library
serializes with, src/src/lib.rs:93): %Y-%m-%dT%H:%M:%S%.f with a 4-digit
zero-padded year. -/
def formatDateTime (t : NaiveDateTime) : String :=
  String.mk
    (padDigits 4 t.year ++ '-' :: padDigits 2 t.month ++ '-' :: padDigits 2 t.day ++
      'T' :: padDigits 2 t.hour ++ ':' :: padDigits 2 t.minute ++
        ':' :: padDigits 2 t.second ++ formatNano t.nano)

/-- Model of chrono::format::ParseError, which is a newtype over this kind
enum; in particular the error value carries no record of which input (or
which map entry) failed. -/
inductive ParseErrorKind
  | outOfRange
  | impossible
  | notEnough
  | invalid
  | tooShort
  | tooLong
  | badFormat
deriving DecidableEq, Repr

instance {ε α : Type} [DecidableEq ε] [DecidableEq α] : DecidableEq (Except ε α) := fun x y =>
  match x, y with
  | Except.ok a, Except.ok b =>
    if h : a = b then isTrue (by rw [h]) else isFalse (fun hc => h (Except.ok.inj hc))
  | Except.error a, Except.error b =>
    if h : a = b then isTrue (by rw [h]) else isFalse (fun hc => h (Except.error.inj hc))
  | Except.ok _, Except.error _ => isFalse (fun hc => Except.noConfusion hc)
  | Except.error _, Except.ok _ => isFalse (fun hc => Except.noConfusion hc)

/-- Split off the longest prefix of decimal digits. -/
def takeDigits : List Char → List Char × List Char
  | [] => ([], [])
  | c :: cs =>
    if c.isDigit then
      let r := takeDigits cs
      (c :: r.1, r.2)
    else ([], c :: cs)

/-- The value of a string of decimal digits, most significant first. -/
def digitsVal (ds : List Char) : Nat :=
  ds.foldl (fun a c => a * 10 + (c.toNat - 48)) 0

/-- Scan a decimal number (chrono numeric-field scanner): empty input is a
TooShort error, a non-digit first character an Invalid error, otherwise the
value of the digit run and the rest of the input. -/
def parseNum (l : List Char) : Except ParseErrorKind (Nat × List Char) :=
  match l with
  | [] => Except.error ParseErrorKind.tooShort
  | c :: cs =>
    if c.isDigit then
      let r := takeDigits (c :: cs)
      Except.ok (digitsVal r.1, r.2)
    else Except.error ParseErrorKind.invalid

/-- Scan one expected literal character (chrono literal item): missing
input is TooShort, a different character Invalid. -/
def expectChar (c : Char) (l : List Char) : Except ParseErrorKind (List Char) :=
  match l with
  | [] => Except.error ParseErrorKind.tooShort
  | x :: xs => if x = c then Except.ok xs else Except.error ParseErrorKind.invalid

/-- Model of chrono %.f item: absent unless the input starts with a dot;
a dot must be followed by at least one digit; the digits (up to nine are
significant) denote the nanosecond field left-aligned. -/
def parseNanoFraction (l : List Char) : Except ParseErrorKind (Nat × List Char) :=
  match l with
  | '.' :: rest =>
    let r := takeDigits rest
    if r.1 = [] then Except.error ParseErrorKind.invalid
    else
      let ds9 := r.1.take 9
      Except.ok (digitsVal ds9 * 10 ^ (9 - ds9.length), r.2)
  | _ => Except.ok (0, l)

/-- Range-check the scanned fields and build the datetime (chrono
Parsed::to_naive_datetime, which rejects an impossible civil date or an
out-of-range time component). -/
def mkDateTime (y mo d h mi s nano : Nat) : Except ParseErrorKind NaiveDateTime :=
  if 9999 < y then Except.error ParseErrorKind.outOfRange
  else if mo < 1 ∨ 12 < mo then Except.error ParseErrorKind.outOfRange
  else if d < 1 ∨ daysInMonth y mo < d then Except.error ParseErrorKind.outOfRange
  else if 23 < h then Except.error ParseErrorKind.outOfRange
  else if 59 < mi then Except.error ParseErrorKind.outOfRange
  else if 59 < s then Except.error ParseErrorKind.outOfRange
  else Except.ok ⟨y, mo, d, h, mi, s, nano⟩

/-- Model of the FromStr of NaiveDateTime (String::parse::<NaiveDateTime> at
src/src/lib.rs:72): the items %Y-%m-%dT%H:%M:%S%.f scanned in order, with
trailing input a TooLong error. -/
def parseDateTime (s : String) : Except ParseErrorKind NaiveDateTime := do
  let l := s.data
  let (y, l) ← parseNum l
  let l ← expectChar '-' l
  let (mo, l) ← parseNum l
  let l ← expectChar '-' l
  let (d, l) ← parseNum l
  let l ← expectChar 'T' l
  let (h, l) ← parseNum l
  let l ← expectChar ':' l
  let (mi, l) ← parseNum l
  let l ← expectChar ':' l
  let (s2, l) ← parseNum l
  let (nano, l) ← parseNanoFraction l
  if l = [] then mkDateTime y mo d h mi s2 nano
  else Except.error ParseErrorKind.tooLong

/-- Model of the impl From<Tasks> for HashMap<String, String>
(src/src/lib.rs:88-96): each timestamp rendered with the Debug format. -/
def toPersistable (tasks : Tasks) : List (String × String) :=
  tasks.map (fun p => (p.1, formatDateTime p.2))

/-- Model of the impl TryFrom<HashMap<String, String>> for Tasks
(src/src/lib.rs:66-77): parse every value, propagating the first parse
error with the ? operator, so a single bad entry rejects the whole map. -/
def tryFromPersistable : List (String × String) → Except ParseErrorKind Tasks
  | [] => Except.ok []
  | p :: rest => do
    let timestamp ← parseDateTime p.2
    let tasks ← tryFromPersistable rest
    Except.ok ((p.1, timestamp) :: tasks)

example : daysFromCivil 1970 1 1 = 0 := by decide
example : daysFromCivil 2023 12 20 - daysFromCivil 2023 1 20 = 334 := by decide
example : daysFromCivil 2023 12 20 - daysFromCivil 2023 11 1 = 49 := by decide
example : num_days (signedDurationSince december (november 1)) = 334 := by decide

example : formatDateTime december = "2023-12-20T00:00:00" := by decide
example : formatDateTime ⟨2023, 1, 2, 3, 4, 5, 123000000⟩ = "2023-01-02T03:04:05.123" := by decide
example : parseDateTime "2023-12-20T00:00:00" = Except.ok december := by decide
example :
    parseDateTime "2023-01-02T03:04:05.123" = Except.ok ⟨2023, 1, 2, 3, 4, 5, 123000000⟩ := by
  decide
example :
    parseDateTime "2023-01-02T03:04:05.000042" = Except.ok ⟨2023, 1, 2, 3, 4, 5, 42000⟩ := by
  decide
example : parseDateTime "not-a-date" = Except.error ParseErrorKind.invalid := by decide
example : parseDateTime "2023-02-30T00:00:00" = Except.error ParseErrorKind.outOfRange := by decide

theorem lookupTask_insertTask_self (m : Tasks) (k : String) (v : NaiveDateTime) :
    lookupTask (insertTask m k v) k = some v := by
  induction m with
  | nil => simp [insertTask, lookupTask]
  | cons p ps ih =>
    by_cases h : p.1 = k
    · simp [insertTask, lookupTask, h]
    · simp [insertTask, lookupTask, h, ih]

theorem lookupTask_insertTask_ne (m : Tasks) (k : String) (v : NaiveDateTime)
    (k' : String) (h : k ≠ k') :
    lookupTask (insertTask m k v) k' = lookupTask m k' := by
  induction m with
  | nil => simp [insertTask, lookupTask, h]
  | cons p ps ih =>
    by_cases hp : p.1 = k
    · have hp' : p.1 ≠ k' := by rw [hp]; exact h
      simp [insertTask, lookupTask, hp, hp', h]
    · by_cases hk' : p.1 = k'
      · simp [insertTask, lookupTask, hp, hk', Ne.symm h]
      · simp [insertTask, lookupTask, hp, hk', ih]

theorem update_multiple_frame (ns : List String) (m : Tasks) (now : NaiveDateTime)
    (k : String) (h : k ∉ ns) :
    lookupTask (Tasks.update_multiple m ns now) k = lookupTask m k := by
  induction ns generalizing m with
  | nil => rfl
  | cons n ns ih =>
    have hk : k ∉ ns := fun hmem => h (List.mem_cons_of_mem n hmem)
    have hne : n ≠ k := fun he => h (he ▸ List.mem_cons_self n ns)
    calc lookupTask (Tasks.update_multiple m (n :: ns) now) k
        = lookupTask (Tasks.update_multiple (insertTask m n now) ns now) k := rfl
      _ = lookupTask (insertTask m n now) k := ih (insertTask m n now) hk
      _ = lookupTask m k := lookupTask_insertTask_ne m n now k hne

/-- C4: Tasks::update_multiple captures one shared now (line 112) and
assigns that identical timestamp to every name in the sequence, creating
entries for names not previously present: afterwards every touched name
looks up to exactly the shared now. -/
theorem update_multiple_shared_now (m : Tasks) (names : List String)
    (now : NaiveDateTime) (name : String) (h : name ∈ names) :
    lookupTask (Tasks.update_multiple m names now) name = some now := by
  induction names generalizing m with
  | nil => cases h
  | cons n ns ih =>
    by_cases hns : name ∈ ns
    · exact ih (insertTask m n now) hns
    · have hn : name = n := by
        rcases List.mem_cons.mp h with h1 | h2
        · exact h1
        · exact absurd h2 hns
      subst hn
      calc lookupTask (Tasks.update_multiple m (name :: ns) now) name
          = lookupTask (Tasks.update_multiple (insertTask m name now) ns now) name := rfl
        _ = lookupTask (insertTask m name now) name :=
            update_multiple_frame ns (insertTask m name now) now name hns
        _ = some now := lookupTask_insertTask_self m name now

theorem update_multiple_shared_now_witness :
    lookupTask (Tasks.update_multiple [] ["x", "y"] december) "x" = some december ∧
      lookupTask (Tasks.update_multiple [] ["x", "y"] december) "y" = some december :=
  ⟨update_multiple_shared_now [] ["x", "y"] december "x" (by decide),
    update_multiple_shared_now [] ["x", "y"] december "y" (by decide)⟩

theorem keep_multiple_aux (self : Tasks) (names : List String) (acc : Tasks) (k : String) :
    lookupTask
        (names.foldl
          (fun map task =>
            match lookupTask self task with
            | some timestamp => insertTask map task timestamp
            | none => map)
          acc)
        k =
      if k ∈ names ∧ (lookupTask self k).isSome then lookupTask self k
      else lookupTask acc k := by
  induction names generalizing acc with
  | nil => simp
  | cons n ns ih =>
    rw [List.foldl_cons, ih]
    by_cases hmem : k ∈ ns ∧ (lookupTask self k).isSome
    · have hmem' : k ∈ n :: ns ∧ (lookupTask self k).isSome :=
        ⟨List.mem_cons_of_mem n hmem.1, hmem.2⟩
      simp only [if_pos hmem, if_pos hmem']
    · rw [if_neg hmem]
      by_cases hk : k = n
      · subst hk
        cases hsome : lookupTask self k with
        | none => simp
        | some ts => simp [lookupTask_insertTask_self]
      · have hcons : ¬(k ∈ n :: ns ∧ (lookupTask self k).isSome) := by
          intro hc
          rcases List.mem_cons.mp hc.1 with h1 | h2
          · exact hk h1
          · exact hmem ⟨h2, hc.2⟩
        rw [if_neg hcons]
        cases hsome : lookupTask self n with
        | none => rfl
        | some ts => exact lookupTask_insertTask_ne acc n ts k (fun he => hk he.symm)

theorem keep_multiple_absent_aux (self : Tasks) (names : List String) (acc : Tasks)
    (h : ∀ n ∈ names, lookupTask self n = none) :
    names.foldl
        (fun map task =>
          match lookupTask self task with
          | some timestamp => insertTask map task timestamp
          | none => map)
        acc =
      acc := by
  induction names generalizing acc with
  | nil => rfl
  | cons n ns ih =>
    rw [List.foldl_cons, h n (List.mem_cons_self n ns)]
    exact ih acc (fun x hx => h x (List.mem_cons_of_mem n hx))

/-- C6: Tasks::keep_multiple replaces the store contents with exactly the
entries whose name appears in the sequence, keeping for each retained name the
existing timestamp; absent names are silently ignored and fabricate no
entry; an empty sequence, or one of only absent names, yields the empty
store. -/
theorem keep_multiple_spec (self : Tasks) (names : List String) :
    (∀ k, lookupTask (Tasks.keep_multiple self names) k =
        if k ∈ names then lookupTask self k else none) ∧
      Tasks.keep_multiple self [] = [] ∧
      ((∀ n ∈ names, lookupTask self n = none) → Tasks.keep_multiple self names = []) := by
  refine ⟨fun k => ?_, rfl, fun h => keep_multiple_absent_aux self names [] h⟩
  show lookupTask
      (names.foldl
        (fun map task =>
          match lookupTask self task with
          | some timestamp => insertTask map task timestamp
          | none => map)
        []) k = _
  rw [keep_multiple_aux self names [] k]
  by_cases hmem : k ∈ names
  · cases hsome : lookupTask self k with
    | none => simp [lookupTask]
    | some ts => simp [hmem, lookupTask]
  · simp [hmem, lookupTask]

theorem keep_multiple_spec_witness :
    lookupTask (Tasks.keep_multiple [("a", december)] ["ghost"]) "ghost" = none ∧
      Tasks.keep_multiple [("a", december)] ["ghost"] = [] :=
  ⟨by
      rw [(keep_multiple_spec [("a", december)] ["ghost"]).1 "ghost"]
      decide,
    (keep_multiple_spec [("a", december)] ["ghost"]).2.2 (by decide)⟩

theorem lookupTask_eq_none_iff (m : Tasks) (k : String) :
    lookupTask m k = none ↔ ∀ p ∈ m, p.1 ≠ k := by
  induction m with
  | nil => simp [lookupTask]
  | cons p ps ih =>
    by_cases h : p.1 = k
    · simp [lookupTask, h]
    · simp [lookupTask, h, ih]

/-- C7: Tasks::remove deletes the entry for the name if present, and on a
store not containing the name it is a no-op returning the store itself
(total, no error path). -/
theorem remove_spec (self : Tasks) (task : String) :
    lookupTask (Tasks.remove self task) task = none ∧
      (lookupTask self task = none → Tasks.remove self task = self) := by
  constructor
  · rw [lookupTask_eq_none_iff]
    intro p hp
    have := List.of_mem_filter hp
    simpa using this
  · intro h
    have hall := (lookupTask_eq_none_iff self task).mp h
    refine List.filter_eq_self.mpr (fun p hp => ?_)
    simpa using hall p hp

theorem remove_spec_witness :
    lookupTask (Tasks.remove [("a", december)] "missing") "missing" = none ∧
      Tasks.remove [("a", december)] "missing" = [("a", december)] :=
  ⟨(remove_spec [("a", december)] "missing").1,
    (remove_spec [("a", december)] "missing").2 (by decide)⟩

theorem foldl_maxNameLen_init_le (l : OutputTasks) (a : Nat) :
    a ≤ l.foldl
        (fun length p => if p.1.utf8ByteSize > length then p.1.utf8ByteSize else length) a := by
  induction l generalizing a with
  | nil => exact Nat.le_refl a
  | cons q l ih =>
    refine Nat.le_trans ?_ (ih (if q.1.utf8ByteSize > a then q.1.utf8ByteSize else a))
    by_cases h : q.1.utf8ByteSize > a
    · simpa [h] using Nat.le_of_lt h
    · simp [h]

theorem mem_le_foldl_maxNameLen (l : OutputTasks) (p : String × String) (hp : p ∈ l)
    (a : Nat) :
    p.1.utf8ByteSize ≤
      l.foldl
        (fun length q => if q.1.utf8ByteSize > length then q.1.utf8ByteSize else length) a := by
  induction l generalizing a with
  | nil => cases hp
  | cons q l ih =>
    rcases List.mem_cons.mp hp with h | h
    · subst h
      refine Nat.le_trans ?_ (foldl_maxNameLen_init_le l _)
      by_cases hq : p.1.utf8ByteSize > a
      · simp [hq]
      · simpa [hq] using Nat.le_of_not_lt hq
    · exact ih h _

theorem maxNameLen_ge (l : OutputTasks) (p : String × String) (hp : p ∈ l) :
    p.1.utf8ByteSize ≤ maxNameLen l :=
  mem_le_foldl_maxNameLen l p hp 0

/-- C10: in the Display impl for OutputTasks the computed maximal name
length is at least the byte length of every name in the report, so the
padding-width subtraction never underflows and displaying is total for
every entry list. -/
theorem display_padding_no_underflow (l : OutputTasks) (p : String × String) (hp : p ∈ l) :
    p.1.utf8ByteSize ≤ maxNameLen l :=
  maxNameLen_ge l p hp

theorem display_padding_no_underflow_witness :
    ("very-long-task-name", "1").1.utf8ByteSize ≤
      maxNameLen [("a", "0"), ("very-long-task-name", "1")] :=
  display_padding_no_underflow [("a", "0"), ("very-long-task-name", "1")]
    ("very-long-task-name", "1") (by decide)

theorem utf8Go_append (a b : List Char) :
    String.utf8ByteSize.go (a ++ b) = String.utf8ByteSize.go a + String.utf8ByteSize.go b := by
  induction a with
  | nil => simp [String.utf8ByteSize.go]
  | cons c cs ih =>
    show String.utf8ByteSize.go (cs ++ b) + c.utf8Size =
      String.utf8ByteSize.go cs + c.utf8Size + String.utf8ByteSize.go b
    rw [ih]
    omega

theorem utf8ByteSize_append (s t : String) :
    (s ++ t).utf8ByteSize = s.utf8ByteSize + t.utf8ByteSize := by
  cases s with
  | mk a =>
    cases t with
    | mk b => exact utf8Go_append a b

theorem utf8ByteSize_spaces (n : Nat) : (spaces n).utf8ByteSize = n := by
  induction n with
  | zero => rfl
  | succ n ih =>
    show String.utf8ByteSize.go (List.replicate (n + 1) ' ') = n + 1
    rw [List.replicate_succ]
    show String.utf8ByteSize.go (List.replicate n ' ') + ' '.utf8Size = n + 1
    have : String.utf8ByteSize.go (List.replicate n ' ') = n := ih
    have hsp : ' '.utf8Size = 1 := by decide
    rw [this, hsp]

theorem string_join_cons (a : String) (l : List String) :
    String.join (a :: l) = a ++ String.join l := by
  have base : ∀ (l : List String) (s : String), l.foldl (· ++ ·) s = s ++ String.join l := by
    intro l
    induction l with
    | nil => intro s; exact (String.append_empty s).symm
    | cons x xs ih =>
      intro s
      show xs.foldl (· ++ ·) (s ++ x) = s ++ String.join (x :: xs)
      rw [ih (s ++ x), String.append_assoc]
      have : String.join (x :: xs) = x ++ String.join xs := by
        show xs.foldl (· ++ ·) ("" ++ x) = x ++ String.join xs
        have hx : ("" : String) ++ x = x := rfl
        rw [hx, ih x]
      rw [this]
  show l.foldl (· ++ ·) ("" ++ a) = a ++ String.join l
  have hx : ("" : String) ++ a = a := rfl
  rw [hx, base l a]

theorem foldl_append_join {α : Type} (f : String → α → String) (g : α → String)
    (hf : ∀ b x, f b x = b ++ g x) (l : List α) (buf : String) :
    l.foldl f buf = buf ++ String.join (l.map g) := by
  induction l generalizing buf with
  | nil => exact (String.append_empty buf).symm
  | cons x xs ih =>
    show xs.foldl f (f buf x) = buf ++ String.join (g x :: xs.map g)
    rw [ih (f buf x), hf, string_join_cons, String.append_assoc]

theorem append_dash_sep (rest : String) :
    (" " : String) ++ ("—" ++ (" " ++ rest)) = " — " ++ rest := by
  rw [← String.append_assoc, ← String.append_assoc]
  have h : ((" " : String) ++ "—") ++ " " = " — " := rfl
  rw [h]

/-- C9: displaying a non-empty report produces exactly one line per entry in
report order, each of the form name, padding spaces up to the longest name
byte length, the separator with a single space on each side, the rendered
text and a terminating newline; every padded name has exactly the width of
the longest name. -/
theorem display_layout (l : OutputTasks) (h : l ≠ []) :
    displayOutputTasks l =
      String.join
        (l.map (fun p =>
          p.1 ++ spaces (maxNameLen l - p.1.utf8ByteSize) ++ " — " ++ p.2 ++ "\n")) ∧
      ∀ p ∈ l,
        (p.1 ++ spaces (maxNameLen l - p.1.utf8ByteSize)).utf8ByteSize = maxNameLen l := by
  constructor
  · show l.foldl
        (fun buffer p =>
          buffer ++ p.1 ++ spaces (maxNameLen l - p.1.utf8ByteSize) ++ " " ++ "—" ++ " " ++
            p.2 ++ "\n")
        "" = _
    rw [foldl_append_join
        (fun buffer p =>
          buffer ++ p.1 ++ spaces (maxNameLen l - p.1.utf8ByteSize) ++ " " ++ "—" ++ " " ++
            p.2 ++ "\n")
        (fun p => p.1 ++ spaces (maxNameLen l - p.1.utf8ByteSize) ++ " — " ++ p.2 ++ "\n")
        (fun b p => by simp only [String.append_assoc]; rw [append_dash_sep]) l ""]
    rfl
  · intro p hp
    rw [utf8ByteSize_append, utf8ByteSize_spaces]
    exact Nat.add_sub_cancel' (maxNameLen_ge l p hp)

theorem display_layout_witness :
    displayOutputTasks [("exercise", "275"), ("vacuum", "303")] =
      String.join
        ([("exercise", "275"), ("vacuum", "303")].map (fun p =>
          p.1 ++
            spaces (maxNameLen [("exercise", "275"), ("vacuum", "303")] - p.1.utf8ByteSize) ++
              " — " ++ p.2 ++ "\n")) :=
  (display_layout [("exercise", "275"), ("vacuum", "303")] (by decide)).1

instance : IsTotal (String × Int) (fun a b => a.2 ≤ b.2) :=
  ⟨fun a b => le_total a.2 b.2⟩

instance : IsTrans (String × Int) (fun a b => a.2 ≤ b.2) :=
  ⟨fun _ _ _ h1 h2 => le_trans h1 h2⟩

/-- C3: Tasks::output_when computes elapsed = now - timestamp for every
entry, its sorted intermediate is ascending in the elapsed duration, the
result is one (name, formatter(elapsed)) pair per stored task (a permutation
of the entry-wise image, nothing rejected), and a future timestamp yields a
negative elapsed duration. -/
theorem output_when_spec (tasks : Tasks) (now : NaiveDateTime) (to_string : Int → String) :
    List.Sorted (fun a b => a.2 ≤ b.2) (Tasks.elapsedSorted tasks now) ∧
      (Tasks.output_when tasks now to_string).Perm
        (tasks.map (fun p => (p.1, to_string (signedDurationSince now p.2)))) ∧
      ∀ p ∈ tasks, toNanos now < toNanos p.2 → signedDurationSince now p.2 < 0 := by
  refine ⟨List.sorted_insertionSort _ _, ?_, ?_⟩
  · have hperm :
        (Tasks.elapsedSorted tasks now).Perm
          (tasks.map (fun p => (p.1, signedDurationSince now p.2))) :=
      List.perm_insertionSort _ _
    have := hperm.map (fun p : String × Int => (p.1, to_string p.2))
    rw [List.map_map] at this
    exact this
  · intro p _ hfut
    unfold signedDurationSince
    omega

theorem output_when_spec_witness :
    List.Sorted (fun a b : String × Int => a.2 ≤ b.2)
      (Tasks.elapsedSorted different_days december) :=
  (output_when_spec different_days december (fun d => toString (num_days d))).1

/-- C1 counterexample: with the store exactly as the claim states it (tasks
done on 2023-11-01, 2023-11-02, 2023-11-03) and now = 2023-12-20, the
rendered and displayed text is the 47/48/49-day report, not the claimed
275/303/334 text.  The test helper november(day) at src/src/lib.rs:287-292
passes day as the month of from_ymd_opt(2023, day, 20), so the fixture the
275/303/334 expectation belongs to holds 2023-01-20, 2023-02-20 and
2023-03-20. -/
theorem render_spec_claimed_dates_counterexample :
    displayOutputTasks
        (Tasks.output_when spec_claimed_store december (fun d => toString (num_days d))) =
      "exercise — 47\nvacuum   — 48\ndust     — 49\n" ∧
      "exercise — 47\nvacuum   — 48\ndust     — 49\n" ≠
        "exercise — 275\nvacuum   — 303\ndust     — 334\n" :=
  ⟨by decide, by decide⟩

/-- C1 (amended): for the store the fixture actually constructs, dust done
2023-01-20, vacuum 2023-02-20 and exercise 2023-03-20, and now =
2023-12-20, rendering with the days formatter and displaying yields exactly
the text of the test expectation, padding aligned to the 8-character width
of the name exercise. -/
theorem render_fixture_display :
    displayOutputTasks
        (Tasks.output_when different_days december (fun d => toString (num_days d))) =
      "exercise — 275\nvacuum   — 303\ndust     — 334\n" := by
  decide

/-- C8 counterexample: Tasks::output_days (through Tasks::output, line 180)
reads the ambient clock internally, so two renders with equal store and
formatter inputs disagree when the ambient clock differs; now is not an
explicit parameter of these two functions. -/
theorem output_days_ambient_clock_counterexample :
    Tasks.output_days [("a", december)] december ≠
      Tasks.output_days [("a", december)] (november 1) := by
  decide

/-- C8 (amended): Tasks::output_when takes now explicitly and rendering is a
deterministic function of (store, now, formatter): equal stores, equal nows
and pointwise-equal formatters render identically.  Tasks::output and
Tasks::output_days instead read the ambient clock internally and equal
output_when applied at that ambient reading. -/
theorem render_deterministic (tasks1 tasks2 : Tasks) (now1 now2 : NaiveDateTime)
    (f g : Int → String) (h1 : tasks1 = tasks2) (h2 : now1 = now2)
    (h3 : ∀ d, f d = g d) :
    Tasks.output_when tasks1 now1 f = Tasks.output_when tasks2 now2 g ∧
      Tasks.output tasks1 f now1 = Tasks.output_when tasks1 now1 f ∧
      Tasks.output_days tasks1 now1 =
        Tasks.output_when tasks1 now1 (fun d => toString (num_days d)) := by
  subst h1
  subst h2
  refine ⟨?_, rfl, rfl⟩
  unfold Tasks.output_when
  exact List.map_congr_left (fun p _ => by rw [h3])

theorem render_deterministic_witness :
    Tasks.output_when different_days december (fun d => "" ++ toString (num_days d)) =
      Tasks.output_when different_days december (fun d => toString (num_days d)) :=
  (render_deterministic different_days different_days december december
    (fun d => "" ++ toString (num_days d)) (fun d => toString (num_days d)) rfl rfl
    (fun _ => rfl)).1

theorem digitChar_isDigit (d : Nat) (h : d < 10) : (digitChar d).isDigit = true := by
  interval_cases d <;> decide

theorem digitChar_toNat (d : Nat) (h : d < 10) : (digitChar d).toNat - 48 = d := by
  interval_cases d <;> decide

theorem padDigits_length (w n : Nat) : (padDigits w n).length = w := by
  induction w generalizing n with
  | zero => rfl
  | succ w ih => simp [padDigits, ih]

theorem padDigits_all_digits (w n : Nat) (h : n < 10 ^ w) :
    ∀ c ∈ padDigits w n, c.isDigit = true := by
  induction w generalizing n with
  | zero => intro c hc; cases hc
  | succ w ih =>
    intro c hc
    rcases List.mem_cons.mp hc with h1 | h2
    · subst h1
      refine digitChar_isDigit _ ?_
      have hpow : 0 < 10 ^ w := Nat.pos_pow_of_pos w (by omega)
      have : n < 10 ^ w * 10 := by
        have := Nat.pow_succ 10 w
        omega
      exact Nat.div_lt_of_lt_mul this
    · exact ih (n % 10 ^ w) (Nat.mod_lt n (Nat.pos_pow_of_pos w (by omega))) c h2

/-- The next character of the input, if any, is not a decimal digit; the
condition under which the greedy digit scanner stops exactly at a field
boundary. -/
def headNotDigit : List Char → Prop
  | [] => True
  | c :: _ => c.isDigit = false

theorem takeDigits_stop (rest : List Char) (h : headNotDigit rest) :
    takeDigits rest = ([], rest) := by
  cases rest with
  | nil => rfl
  | cons c cs =>
    have h' : c.isDigit = false := h
    simp [takeDigits, h']

theorem takeDigits_exact (ds rest : List Char) (hds : ∀ c ∈ ds, c.isDigit = true)
    (hrest : headNotDigit rest) :
    takeDigits (ds ++ rest) = (ds, rest) := by
  induction ds with
  | nil => exact takeDigits_stop rest hrest
  | cons c cs ih =>
    have hc : c.isDigit = true := hds c (List.mem_cons_self c cs)
    have := ih (fun x hx => hds x (List.mem_cons_of_mem c hx))
    simp [takeDigits, hc, this]

theorem foldl_digitsVal_padDigits (w n a : Nat) (h : n < 10 ^ w) :
    (padDigits w n).foldl (fun a c => a * 10 + (c.toNat - 48)) a = a * 10 ^ w + n := by
  induction w generalizing n a with
  | zero =>
    have : n = 0 := by
      have := Nat.pow_zero 10
      omega
    simp [padDigits, this]
  | succ w ih =>
    have hpow : 0 < 10 ^ w := Nat.pos_pow_of_pos w (by omega)
    have hq : n / 10 ^ w < 10 := by
      refine Nat.div_lt_of_lt_mul ?_
      have := Nat.pow_succ 10 w
      omega
    show (padDigits w (n % 10 ^ w)).foldl (fun a c => a * 10 + (c.toNat - 48))
        (a * 10 + ((digitChar (n / 10 ^ w)).toNat - 48)) = a * 10 ^ (w + 1) + n
    rw [digitChar_toNat _ hq, ih (n % 10 ^ w) _ (Nat.mod_lt n hpow)]
    have hdm : 10 ^ w * (n / 10 ^ w) + n % 10 ^ w = n := Nat.div_add_mod n (10 ^ w)
    have hps : 10 ^ (w + 1) = 10 ^ w * 10 := Nat.pow_succ 10 w
    calc (a * 10 + n / 10 ^ w) * 10 ^ w + n % 10 ^ w
        = a * (10 ^ w * 10) + (10 ^ w * (n / 10 ^ w) + n % 10 ^ w) := by ring
      _ = a * 10 ^ (w + 1) + n := by rw [hdm, hps]

theorem digitsVal_padDigits (w n : Nat) (h : n < 10 ^ w) :
    digitsVal (padDigits w n) = n := by
  have := foldl_digitsVal_padDigits w n 0 h
  simpa [digitsVal] using this

theorem parseNum_padDigits (w n : Nat) (rest : List Char) (hw : 0 < w)
    (hn : n < 10 ^ w) (hrest : headNotDigit rest) :
    parseNum (padDigits w n ++ rest) = Except.ok (n, rest) := by
  cases w with
  | zero => omega
  | succ w =>
    have hq : n / 10 ^ w < 10 := by
      refine Nat.div_lt_of_lt_mul ?_
      have := Nat.pow_succ 10 w
      have : 0 < 10 ^ w := Nat.pos_pow_of_pos w (by omega)
      omega
    have hdig : (digitChar (n / 10 ^ w)).isDigit = true := digitChar_isDigit _ hq
    have htake : takeDigits (padDigits (w + 1) n ++ rest) = (padDigits (w + 1) n, rest) :=
      takeDigits_exact _ rest (padDigits_all_digits (w + 1) n hn) hrest
    show parseNum (digitChar (n / 10 ^ w) :: (padDigits w (n % 10 ^ w) ++ rest)) = _
    rw [parseNum]
    have hcons : digitChar (n / 10 ^ w) :: (padDigits w (n % 10 ^ w) ++ rest) =
        padDigits (w + 1) n ++ rest := rfl
    simp only [hdig, if_true, hcons, htake]
    rw [digitsVal_padDigits (w + 1) n hn]

theorem expectChar_cons (c : Char) (rest : List Char) :
    expectChar c (c :: rest) = Except.ok rest := by
  simp [expectChar]

theorem takeDigits_all (ds : List Char) (hds : ∀ c ∈ ds, c.isDigit = true) :
    takeDigits ds = (ds, []) := by
  have h1 : takeDigits (ds ++ []) = (ds, []) := takeDigits_exact ds [] hds trivial
  simpa using h1

theorem parseNanoFraction_dot (w q : Nat) (hw : 0 < w) (hw9 : w ≤ 9) (hq : q < 10 ^ w) :
    parseNanoFraction ('.' :: padDigits w q) = Except.ok (q * 10 ^ (9 - w), []) := by
  have htake : takeDigits (padDigits w q) = (padDigits w q, []) :=
    takeDigits_all _ (padDigits_all_digits w q hq)
  have hne : padDigits w q ≠ [] := by
    refine List.ne_nil_of_length_pos ?_
    rw [padDigits_length]
    omega
  have htk9 : (padDigits w q).take 9 = padDigits w q :=
    List.take_of_length_le (by rw [padDigits_length]; omega)
  show (let r := takeDigits (padDigits w q);
      if r.1 = [] then Except.error ParseErrorKind.invalid
      else
        let ds9 := r.1.take 9
        Except.ok (digitsVal ds9 * 10 ^ (9 - ds9.length), r.2)) = _
  rw [htake]
  show (if padDigits w q = [] then Except.error ParseErrorKind.invalid
      else
        Except.ok
          (digitsVal ((padDigits w q).take 9) * 10 ^ (9 - ((padDigits w q).take 9).length),
            [])) = _
  rw [if_neg hne, htk9, padDigits_length, digitsVal_padDigits w q hq]

theorem parseNanoFraction_format (nano : Nat) (h : nano < 1000000000) :
    parseNanoFraction (formatNano nano) = Except.ok (nano, []) := by
  by_cases h0 : nano = 0
  · subst h0
    rfl
  · by_cases h6 : nano % 1000000 = 0
    · have hfmt : formatNano nano = '.' :: padDigits 3 (nano / 1000000) := by
        simp [formatNano, h0, h6]
      have hq : nano / 1000000 < 10 ^ 3 := by
        refine Nat.div_lt_of_lt_mul ?_
        norm_num
        omega
      rw [hfmt, parseNanoFraction_dot 3 _ (by omega) (by omega) hq]
      have : nano / 1000000 * 10 ^ (9 - 3) = nano := by
        have h1 : (10 : Nat) ^ (9 - 3) = 1000000 := by norm_num
        rw [h1]
        exact Nat.div_mul_cancel (Nat.dvd_of_mod_eq_zero h6)
      rw [this]
    · by_cases h3 : nano % 1000 = 0
      · have hfmt : formatNano nano = '.' :: padDigits 6 (nano / 1000) := by
          simp [formatNano, h0, h6, h3]
        have hq : nano / 1000 < 10 ^ 6 := by
          refine Nat.div_lt_of_lt_mul ?_
          norm_num
          omega
        rw [hfmt, parseNanoFraction_dot 6 _ (by omega) (by omega) hq]
        have : nano / 1000 * 10 ^ (9 - 6) = nano := by
          have h1 : (10 : Nat) ^ (9 - 6) = 1000 := by norm_num
          rw [h1]
          exact Nat.div_mul_cancel (Nat.dvd_of_mod_eq_zero h3)
        rw [this]
      · have hfmt : formatNano nano = '.' :: padDigits 9 nano := by
          simp [formatNano, h0, h6, h3]
        have hq : nano < 10 ^ 9 := by norm_num; omega
        rw [hfmt, parseNanoFraction_dot 9 _ (by omega) (by omega) hq]
        have : nano * 10 ^ (9 - 9) = nano := by norm_num
        rw [this]

theorem daysInMonth_le_31 (y m : Nat) : daysInMonth y m ≤ 31 := by
  unfold daysInMonth
  split
  · split <;> omega
  · split <;> omega

theorem except_bind_ok {α β : Type} (a : α) (f : α → Except ParseErrorKind β) :
    (Except.ok a : Except ParseErrorKind α) >>= f = f a := rfl

theorem except_bind_error {α β : Type} (e : ParseErrorKind) (f : α → Except ParseErrorKind β) :
    (Except.error e : Except ParseErrorKind α) >>= f = Except.error e := rfl

theorem string_data_mk (l : List Char) : (String.mk l).data = l := rfl

theorem isDigit_dash : ('-').isDigit = false := rfl

theorem isDigit_colon : (':').isDigit = false := rfl

theorem isDigit_T : ('T').isDigit = false := rfl

theorem headNotDigit_formatNano (nano : Nat) : headNotDigit (formatNano nano) := by
  unfold formatNano
  split
  · trivial
  · split
    · exact rfl
    · split
      · exact rfl
      · exact rfl

theorem parse_format_roundtrip (t : NaiveDateTime) (h : ValidDateTime t) :
    parseDateTime (formatDateTime t) = Except.ok t := by
  obtain ⟨y, mo, d, hh, mi, ss, nano⟩ := t
  obtain ⟨hy, hmo1, hmo2, hd1, hd2, hhh, hmi, hss, hnano⟩ := h
  dsimp only at hy hmo1 hmo2 hd1 hd2 hhh hmi hss hnano
  have h104 : (10 : Nat) ^ 4 = 10000 := by norm_num
  have h102 : (10 : Nat) ^ 2 = 100 := by norm_num
  have hy4 : y < 10 ^ 4 := by omega
  have hmo4 : mo < 10 ^ 2 := by omega
  have hd31 : d ≤ 31 := le_trans hd2 (daysInMonth_le_31 y mo)
  have hdlt : d < 10 ^ 2 := by omega
  have hhlt : hh < 10 ^ 2 := by omega
  have hmilt : mi < 10 ^ 2 := by omega
  have hsslt : ss < 10 ^ 2 := by omega
  have nhy : ¬(9999 < y) := by omega
  have nhmo : ¬(mo < 1 ∨ 12 < mo) := by omega
  have nhd : ¬(d < 1 ∨ daysInMonth y mo < d) := by omega
  have nhh : ¬(23 < hh) := by omega
  have nhmi : ¬(59 < mi) := by omega
  have nhss : ¬(59 < ss) := by omega
  simp only [parseDateTime, formatDateTime, string_data_mk, List.cons_append,
    List.append_assoc]
  simp only [parseNum_padDigits, expectChar_cons, except_bind_ok, parseNanoFraction_format,
    headNotDigit, isDigit_dash, isDigit_colon, isDigit_T, headNotDigit_formatNano, hy4,
    hmo4, hdlt, hhlt, hmilt,
    hsslt, hnano, Nat.zero_lt_succ, mkDateTime, nhy, nhmo, nhd, nhh, nhmi, nhss,
    if_false, if_true, eq_self_iff_true]
  rw [parseNum_padDigits 2 ss (formatNano nano) (by omega) hsslt (headNotDigit_formatNano nano)]
  simp only [except_bind_ok]
  rw [parseNanoFraction_format nano hnano]
  simp only [except_bind_ok]
  simp [nhss]

/-- C2: serializing a store to the persistable string map and parsing it
back succeeds and reproduces exactly the same (name, timestamp) pairs, the
timestamps intact to sub-second (nanosecond) precision; stated for stores of
chrono-valid datetimes, the invariant of every constructible store. -/
theorem persist_roundtrip (tasks : Tasks) (h : ∀ p ∈ tasks, ValidDateTime p.2) :
    tryFromPersistable (toPersistable tasks) = Except.ok tasks := by
  induction tasks with
  | nil => rfl
  | cons p ps ih =>
    have hp : ValidDateTime p.2 := h p (List.mem_cons_self p ps)
    have hps := ih (fun q hq => h q (List.mem_cons_of_mem p hq))
    show tryFromPersistable ((p.1, formatDateTime p.2) :: toPersistable ps) = _
    rw [tryFromPersistable]
    dsimp only
    rw [parse_format_roundtrip p.2 hp, except_bind_ok, hps, except_bind_ok]

theorem persist_roundtrip_witness :
    tryFromPersistable (toPersistable different_days) = Except.ok different_days :=
  persist_roundtrip different_days (by decide)

/-- C5 counterexample: the ParseError returned by the TryFrom conversion
does not identify the offending entry: two maps whose single (and therefore
offending) entries have different keys and different unparsable values fail
with the identical error value. -/
theorem tryFrom_error_no_entry_counterexample :
    tryFromPersistable [("t", "not-a-date")] = Except.error ParseErrorKind.invalid ∧
      tryFromPersistable [("u", "never")] = Except.error ParseErrorKind.invalid ∧
      ("t" : String) ≠ "u" :=
  ⟨by decide, by decide, by decide⟩

/-- C5 (amended): the TryFrom conversion fails with a ParseError (carrying
only the failure kind, not the offending entry) precisely when some value in
the map fails to parse in the %Y-%m-%dT%H:%M:%S%.f format, and it is
all-or-nothing: it succeeds exactly when every value parses, and on failure
no store is produced. -/
theorem tryFrom_all_or_nothing (m : List (String × String)) :
    (tryFromPersistable m).isOk = m.all (fun p => (parseDateTime p.2).isOk) := by
  induction m with
  | nil => rfl
  | cons p ps ih =>
    rw [tryFromPersistable]
    cases hp : parseDateTime p.2 with
    | error e =>
      simp only [except_bind_error, hp, Except.isOk, Except.toBool, List.all_cons,
        Bool.false_and]
    | ok t =>
      cases hps : tryFromPersistable ps with
      | error e =>
        rw [hps] at ih
        simp only [except_bind_ok, hps, except_bind_error, hp, Except.isOk,
          Except.toBool, List.all_cons, Bool.true_and] at ih ⊢
        exact ih
      | ok ts =>
        rw [hps] at ih
        simp only [except_bind_ok, hps, hp, Except.isOk, Except.toBool,
          List.all_cons, Bool.true_and] at ih ⊢
        exact ih
